import Mathlib

/-!
Verification of the teensy4x-flasher core (hex parser and HalfKay flash engine).

Shallow embedding of `src/hex.rs`, `src/halfkay.rs` and the constants of
`src/usb.rs`.  Rust strings are modelled as `List Char`; byte-oriented string
operations (`str::len`, `&s[a..b]`) are modelled through the UTF-8 byte length
of each character, and a slice whose endpoint falls inside a multi-byte
character is a panic, as in Rust.  Machine integers are modelled as `Nat` with
explicit `% 2^32` where u32 overflow can occur (release-mode wrapping
semantics); out-of-bounds slice indexing is modelled as an explicit `panicked`
outcome.  Timing (`Instant::elapsed` / `thread::sleep`) is modelled by a
millisecond counter that advances by `RETRY_SLEEP` at each sleep, write calls
themselves taking no time.
-/

set_option autoImplicit false

namespace Teensy

/-! ## Constants from `src/usb.rs` -/

def BLOCK_SIZE : Nat := 1024
def HEADER_SIZE : Nat := 64
def REPORT_SIZE : Nat := 1 + HEADER_SIZE + BLOCK_SIZE

/-! ## Outcome monad: ok / parse error / panic

Rust code returning `Result` can also panic (string slicing off a char
boundary, out-of-bounds indexing, …).  `Outcome` keeps the panic case
explicit. -/

inductive ParseErr where
  | missingStartCode (line : Nat)
  | recordTooShort (line : Nat)
  | invalidHex (line : Nat) (offset : Nat)
  | dataTruncated (line : Nat)
  | checksumMismatch (line : Nat)
  | extAddrLen (line : Nat)
  | unsupportedType (line : Nat) (t : Nat)
  | noData
  deriving DecidableEq, Repr

inductive Outcome (α : Type) where
  | ok (a : α)
  | err (e : ParseErr)
  | panicked
  deriving DecidableEq, Repr

def Outcome.bind {α β : Type} : Outcome α → (α → Outcome β) → Outcome β
  | .ok a, f => f a
  | .err e, _ => .err e
  | .panicked, _ => .panicked

instance : Monad Outcome where
  pure := .ok
  bind := Outcome.bind

/-! ## UTF-8 byte-level string model -/

/-- Number of bytes of the UTF-8 encoding of a character. -/
def byteLen (c : Char) : Nat :=
  if c.toNat < 0x80 then 1
  else if c.toNat < 0x800 then 2
  else if c.toNat < 0x10000 then 3
  else 4

/-- Rust `str::len`: length of a string in UTF-8 bytes. -/
def strByteLen (s : List Char) : Nat := (s.map byteLen).sum

/-- Drop the first `n` bytes of a string; `none` models the Rust slicing panic
when byte index `n` is not a character boundary (or exceeds the length). -/
def byteDrop : List Char → Nat → Option (List Char)
  | s, 0 => some s
  | [], _ + 1 => none
  | c :: rest, n + 1 =>
    if byteLen c ≤ n + 1 then byteDrop rest (n + 1 - byteLen c) else none

/-- Take the first `n` bytes of a string; `none` models the Rust slicing panic
when byte index `n` is not a character boundary (or exceeds the length). -/
def byteTake : List Char → Nat → Option (List Char)
  | _, 0 => some []
  | [], _ + 1 => none
  | c :: rest, n + 1 =>
    if byteLen c ≤ n + 1 then (byteTake rest (n + 1 - byteLen c)).map (c :: ·)
    else none

/-- Rust `&s[a..b]`: byte-indexed slice, `none` = panic. -/
def byteSlice (s : List Char) (a b : Nat) : Option (List Char) :=
  if a ≤ b then (byteDrop s a).bind (fun t => byteTake t (b - a)) else none

/-- Rust `char::to_digit(16)`. -/
def hexDigitVal (c : Char) : Option Nat :=
  if 48 ≤ c.toNat ∧ c.toNat ≤ 57 then some (c.toNat - 48)
  else if 97 ≤ c.toNat ∧ c.toNat ≤ 102 then some (c.toNat - 87)
  else if 65 ≤ c.toNat ∧ c.toNat ≤ 70 then some (c.toNat - 55)
  else none

/-- Digit-accumulation loop of `from_str_radix` with the overflow check
against the integer type's maximum. -/
def radix16Digits (maxVal : Nat) : List Char → Nat → Option Nat
  | [], acc => some acc
  | c :: rest, acc =>
    match hexDigitVal c with
    | none => none
    | some d =>
      if acc * 16 + d > maxVal then none
      else radix16Digits maxVal rest (acc * 16 + d)

/-- Rust `uN::from_str_radix(s, 16)` for an unsigned type with maximum `maxVal`:
an optional leading `+` sign followed by one or more hex digits. -/
def fromStrRadix16 (s : List Char) (maxVal : Nat) : Option Nat :=
  match s with
  | [] => none
  | c :: rest =>
    if c = '+' then
      if rest = [] then none else radix16Digits maxVal rest 0
    else radix16Digits maxVal s 0

/-! ## `src/hex.rs` -/

/-- Model of `parse_hex_u8`: slices two bytes then parses them in radix 16.  The slice
can panic (multi-byte character under the window); a failed integer parse is
the `invalid hex` error. -/
def parse_hex_u8 (hex : List Char) (offset : Nat) (lineNum : Nat) : Outcome Nat :=
  match byteSlice hex offset (offset + 2) with
  | none => .panicked
  | some w =>
    match fromStrRadix16 w 255 with
    | none => .err (.invalidHex lineNum offset)
    | some v => .ok v

/-- Model of `parse_hex_u16`: slices four bytes then parses them in radix 16. -/
def parse_hex_u16 (hex : List Char) (offset : Nat) (lineNum : Nat) : Outcome Nat :=
  match byteSlice hex offset (offset + 4) with
  | none => .panicked
  | some w =>
    match fromStrRadix16 w 65535 with
    | none => .err (.invalidHex lineNum offset)
    | some v => .ok v

structure RawRecord where
  address : Nat
  record_type : Nat
  data : List Nat
  deriving DecidableEq, Repr

/-- The `for i in 0..byte_count` loop pushing `parse_hex_u8(hex, 8 + i*2)`. -/
def readDataBytes (hex : List Char) (lineNum : Nat) : Nat → Nat → Outcome (List Nat)
  | _, 0 => .ok []
  | i, count + 1 => do
    let b ← parse_hex_u8 hex (8 + i * 2) lineNum
    let rest ← readDataBytes hex lineNum (i + 1) count
    pure (b :: rest)

/-- Field-decoding stage of `parse_record` (everything before the checksum
test): byte count, 16-bit address, record type, the truncation check, the
payload bytes and the checksum byte, in source order. -/
def decodeLine (line : List Char) (lineNum : Nat) :
    Outcome (Nat × Nat × Nat × List Nat × Nat) :=
  match line with
  | [] => .err (.missingStartCode lineNum)
  | c0 :: hex =>
    if c0 = ':' then
      if strByteLen hex < 10 then .err (.recordTooShort lineNum)
      else do
        let byte_count ← parse_hex_u8 hex 0 lineNum
        let address ← parse_hex_u16 hex 2 lineNum
        let record_type ← parse_hex_u8 hex 6 lineNum
        if strByteLen hex < 8 + byte_count * 2 + 2 then .err (.dataTruncated lineNum)
        else do
          let data ← readDataBytes hex lineNum 0 byte_count
          let checksum ← parse_hex_u8 hex (8 + byte_count * 2) lineNum
          pure (byte_count, address, record_type, data, checksum)
    else .err (.missingStartCode lineNum)

/-- Model of `parse_record`: decode the fields, then the wrapping 8-bit checksum test. -/
def parse_record (line : List Char) (lineNum : Nat) : Outcome RawRecord := do
  let (byte_count, address, record_type, data, checksum) ← decodeLine line lineNum
  if (byte_count + address / 256 + address % 256 + record_type
      + data.sum + checksum) % 256 ≠ 0 then
    .err (.checksumMismatch lineNum)
  else
    pure ⟨address, record_type, data⟩

/-! ### `str::lines` and `str::trim` -/

/-- Split a character list at every newline (each part excludes the `\n`). -/
def splitNL : List Char → List (List Char)
  | [] => [[]]
  | c :: rest =>
    if c = '\n' then [] :: splitNL rest
    else
      match splitNL rest with
      | [] => [[c]]
      | l :: ls => (c :: l) :: ls

/-- Strip one trailing carriage return (`\r\n` line terminators). -/
def stripCR (l : List Char) : List Char :=
  if l.getLast? = some '\r' then l.dropLast else l

/-- Rust `str::lines`: split at `\n`, strip a `\r` before each `\n`, and do not
produce a final empty line for a trailing newline. -/
def rustLines (s : List Char) : List (List Char) :=
  if s = [] then []
  else if s.getLast? = some '\n' then ((splitNL s).dropLast).map stripCR
  else ((splitNL s).dropLast).map stripCR ++ [((splitNL s).getLast?).getD []]

/-- Rust `char::is_whitespace`: the Unicode White_Space code points. -/
def isRustWS (c : Char) : Bool :=
  let v := c.toNat
  decide (9 ≤ v ∧ v ≤ 13) || (v == 32) || (v == 0x85) || (v == 0xA0) ||
  (v == 0x1680) || decide (0x2000 ≤ v ∧ v ≤ 0x200A) || (v == 0x2028) ||
  (v == 0x2029) || (v == 0x202F) || (v == 0x205F) || (v == 0x3000)

/-- Rust `str::trim`. -/
def trimList (s : List Char) : List Char :=
  ((s.dropWhile isRustWS).reverse.dropWhile isRustWS).reverse

/-! ### The record-stream loop of `FirmwareImage::parse` -/

/-- The per-line loop of `FirmwareImage::parse`: skip blank lines, parse each
record, dispatch on the record type, collecting `(absolute address, payload)`
segments.  `lineNum` is 1-based, `ext` is the current extended address. -/
def parseLines : List (List Char) → Nat → Nat → List (Nat × List Nat) →
    Outcome (List (Nat × List Nat))
  | [], _, _, segs => .ok segs
  | line :: rest, lineNum, ext, segs =>
    let t := trimList line
    if t.isEmpty then parseLines rest (lineNum + 1) ext segs
    else do
      let r ← parse_record t lineNum
      if r.record_type = 0 then
        parseLines rest (lineNum + 1) ext (segs ++ [(ext ||| r.address, r.data)])
      else if r.record_type = 1 then .ok segs
      else if r.record_type = 4 then
        if r.data.length ≠ 2 then .err (.extAddrLen lineNum)
        else
          parseLines rest (lineNum + 1)
            ((r.data.getD 0 0 <<< 24) ||| (r.data.getD 1 0 <<< 16)) segs
      else if r.record_type = 5 then parseLines rest (lineNum + 1) ext segs
      else .err (.unsupportedType lineNum r.record_type)

/-- Segment-collection phase of `FirmwareImage::parse`. -/
def parseSegments (content : List Char) : Outcome (List (Nat × List Nat)) :=
  parseLines (rustLines content) 1 0 []

structure FirmwareImage where
  data : List Nat
  base_address : Nat
  deriving DecidableEq, Repr

/-- The segment-copy loop: `data[offset..offset+len].copy_from_slice(..)`,
panicking when the target range exceeds the buffer. -/
def copySegs : List (Nat × List Nat) → Nat → List Nat → Outcome (List Nat)
  | [], _, buf => .ok buf
  | (a, d) :: rest, base, buf =>
    if a - base + d.length ≤ buf.length then
      copySegs rest base
        (buf.take (a - base) ++ d ++ buf.drop (a - base + d.length))
    else .panicked

/-- Image-building phase of `FirmwareImage::parse`: address range, the
block-aligned `0xFF`-filled buffer, and the segment copies.  u32 additions and
subtractions wrap modulo `2^32` (release semantics). -/
def buildImage (segs : List (Nat × List Nat)) : Outcome FirmwareImage :=
  match segs with
  | [] => .err .noData
  | s :: rest =>
    let base := rest.foldl (fun m p => min m p.1) s.1
    let endAddr := rest.foldl (fun m p => max m ((p.1 + p.2.length) % 2 ^ 32))
      ((s.1 + s.2.length) % 2 ^ 32)
    let rawSize := (endAddr + 2 ^ 32 - base) % 2 ^ 32
    let alignedSize := (rawSize + (BLOCK_SIZE - 1)) / BLOCK_SIZE * BLOCK_SIZE
    (copySegs (s :: rest) base (List.replicate alignedSize 0xFF)).bind
      (fun buf => .ok ⟨buf, base⟩)

/-- Model of `FirmwareImage::parse`. -/
def parse (content : List Char) : Outcome FirmwareImage := do
  let segs ← parseSegments content
  buildImage segs

/-! ## `src/halfkay.rs` -/

def ERASE_BLOCK_COUNT : Nat := 4
/-- Milliseconds. -/
def ERASE_TIMEOUT : Nat := 45000
def WRITE_TIMEOUT : Nat := 500
def RETRY_SLEEP : Nat := 10
def REOPEN_THROTTLE : Nat := 100

/-- One outcome of `TeensyDevice::write_report`: `Ok(bytes_written)` or an
error whose message may or may not contain `"Broken pipe"`. -/
inductive WOut where
  | ok (n : Nat)
  | err (brokenPipe : Bool)
  deriving DecidableEq, Repr

/-- A transport behaviour: the result of the `k`-th `write_report` call of the
session, given the report written. -/
def Transport : Type := Nat → List Nat → WOut

inductive FlashErr where
  | shortWrite (n total : Nat)
  | timedOut (timeout : Nat)
  deriving DecidableEq, Repr

/-- Model of `fill_block_report`: zero the whole buffer, write the 24-bit little-endian
block address at bytes 1-3, and copy the block at bytes `1 + HEADER_SIZE`
onward.  (Used only with `data.length ≤ BLOCK_SIZE` and a `REPORT_SIZE`
buffer, where the Rust copies are in bounds.) -/
def fill_block_report (report : List Nat) (addr : Nat) (data : List Nat) : List Nat :=
  let z := (((List.replicate report.length 0).set 1 (addr % 256)).set 2
    (addr / 256 % 256)).set 3 (addr / 65536 % 256)
  z.take (1 + HEADER_SIZE) ++ data ++ z.drop (1 + HEADER_SIZE + data.length)

/-- Model of `fill_boot_report`: zero the buffer and set address bytes `FF FF FF`. -/
def fill_boot_report (report : List Nat) : List Nat :=
  (((List.replicate report.length 0).set 1 0xFF).set 2 0xFF).set 3 0xFF

/-- The retry loop of `write_with_retry`.  `k` is the session-wide write
counter, `elapsed` the milliseconds since the loop started, `lastReopen` the
`elapsed` value at the last reopen attempt (both initially 0).  Each failed
attempt sleeps `RETRY_SLEEP`; reopens are throttled by `REOPEN_THROTTLE` and
attempted only on "Broken pipe" failures.  Returns the next write counter, the
final elapsed time and the result. -/
def retryLoop (tr : Transport) (report : List Nat) (timeout : Nat)
    (k elapsed lastReopen : Nat) : Nat × Nat × Except FlashErr Unit :=
  match tr k report with
  | .ok n =>
    if n = report.length then (k + 1, elapsed, .ok ())
    else (k + 1, elapsed, .error (.shortWrite n report.length))
  | .err brokenPipe =>
    if timeout ≤ elapsed then (k + 1, elapsed, .error (.timedOut timeout))
    else
      retryLoop tr report timeout (k + 1) (elapsed + RETRY_SLEEP)
        (if brokenPipe ∧ REOPEN_THROTTLE ≤ elapsed - lastReopen then elapsed
         else lastReopen)
termination_by timeout + RETRY_SLEEP - elapsed
decreasing_by simp only [RETRY_SLEEP]; omega

/-- Model of `write_with_retry`: the long erase budget for the first blocks
(`block_index <= ERASE_BLOCK_COUNT`), the short budget afterwards. -/
def write_with_retry (tr : Transport) (report : List Nat) (blockIndex : Nat)
    (k : Nat) : Nat × Nat × Except FlashErr Unit :=
  retryLoop tr report
    (if blockIndex ≤ ERASE_BLOCK_COUNT then ERASE_TIMEOUT else WRITE_TIMEOUT)
    k 0 0

/-- The retry loop of `reboot`: like `retryLoop` but any `Ok` result and any
post-timeout failure return success, and reopens are not conditioned on
"Broken pipe". -/
def rebootLoop (tr : Transport) (report : List Nat)
    (k elapsed lastReopen : Nat) : Nat × Nat × Except FlashErr Unit :=
  match tr k report with
  | .ok _ => (k + 1, elapsed, .ok ())
  | .err _ =>
    if WRITE_TIMEOUT ≤ elapsed then (k + 1, elapsed, .ok ())
    else
      rebootLoop tr report (k + 1) (elapsed + RETRY_SLEEP)
        (if REOPEN_THROTTLE ≤ elapsed - lastReopen then elapsed else lastReopen)
termination_by WRITE_TIMEOUT + RETRY_SLEEP - elapsed
decreasing_by simp only [WRITE_TIMEOUT, RETRY_SLEEP] at *; omega

/-- Model of `reboot`. -/
def reboot (tr : Transport) (k : Nat) : Nat × Nat × Except FlashErr Unit :=
  rebootLoop tr (fill_boot_report (List.replicate REPORT_SIZE 0)) k 0 0

/-- Observable events of `flash_with_progress`: a progress-callback invocation
and a `write_with_retry` invocation for a block (with the report framed for
it). -/
inductive FEv where
  | progress (i : Nat)
  | blockWrite (i : Nat) (report : List Nat)
  deriving DecidableEq, Repr

/-- The block loop of `flash_with_progress`.  `remaining` counts the blocks
left (`total_blocks - i`), `report` is the reused report buffer, `trace` the
events so far.  A non-first all-`0xFF` block is skipped; otherwise the
progress callback fires, the report is filled and written with retry, and any
error aborts. -/
def flashGo (tr : Transport) (img : FirmwareImage) :
    Nat → Nat → Nat → List Nat → List FEv → List FEv × Nat × Except FlashErr Unit
  | 0, _, k, _, trace => (trace, k, .ok ())
  | remaining + 1, i, k, report, trace =>
    let offset := i * BLOCK_SIZE
    let block := (img.data.drop offset).take BLOCK_SIZE
    if 0 < i ∧ block.all (fun b => b == 0xFF) then
      flashGo tr img remaining (i + 1) k report trace
    else
      let rpt := fill_block_report report offset block
      let res := write_with_retry tr rpt i k
      let trace' := trace ++ [.progress i, .blockWrite i rpt]
      match res.2.2 with
      | .ok () => flashGo tr img remaining (i + 1) res.1 rpt trace'
      | .error e => (trace', res.1, .error e)

/-- Model of `flash_with_progress`: iterate the blocks of the image, returning the
event trace, the final write counter and the result. -/
def flash_with_progress (tr : Transport) (img : FirmwareImage) :
    List FEv × Nat × Except FlashErr Unit :=
  flashGo tr img (img.data.length / BLOCK_SIZE) 0 0 (List.replicate REPORT_SIZE 0) []

/-! ## Helper lemmas about the `Outcome` monad -/

@[simp] theorem ok_bind {α β : Type} (a : α) (f : α → Outcome β) :
    (Outcome.ok a >>= f) = f a := rfl

@[simp] theorem err_bind {α β : Type} (e : ParseErr) (f : α → Outcome β) :
    ((Outcome.err e : Outcome α) >>= f) = .err e := rfl

@[simp] theorem panicked_bind {α β : Type} (f : α → Outcome β) :
    ((Outcome.panicked : Outcome α) >>= f) = .panicked := rfl

@[simp] theorem pure_eq_ok {α : Type} (a : α) : (pure a : Outcome α) = .ok a := rfl

theorem bind_eq_ok {α β : Type} {x : Outcome α} {f : α → Outcome β} {b : β} :
    (x >>= f) = .ok b ↔ ∃ a, x = .ok a ∧ f a = .ok b := by
  cases x <;> simp

/-! ## Helper lemmas about `from_str_radix` -/

theorem radix16Digits_mem_isSome {maxVal : Nat} :
    ∀ {s : List Char} {acc v : Nat}, radix16Digits maxVal s acc = some v →
      ∀ c ∈ s, (hexDigitVal c).isSome
  | [], _, _, _, _, hc => by cases hc
  | c' :: rest, acc, v, h, c, hc => by
    rw [radix16Digits] at h
    cases hd : hexDigitVal c' with
    | none => rw [hd] at h; cases h
    | some d =>
      simp only [hd] at h
      by_cases hov : acc * 16 + d > maxVal
      · simp [hov] at h
      · rw [if_neg hov] at h
        rcases List.mem_cons.mp hc with rfl | hc2
        · simp [hd]
        · exact radix16Digits_mem_isSome h c hc2

theorem radix16Digits_le {maxVal : Nat} :
    ∀ {s : List Char} {acc v : Nat}, radix16Digits maxVal s acc = some v →
      acc ≤ maxVal → v ≤ maxVal
  | [], acc, v, h, hacc => by rw [radix16Digits] at h; cases h; exact hacc
  | c' :: rest, acc, v, h, hacc => by
    rw [radix16Digits] at h
    cases hd : hexDigitVal c' with
    | none => rw [hd] at h; cases h
    | some d =>
      simp only [hd] at h
      by_cases hov : acc * 16 + d > maxVal
      · simp [hov] at h
      · rw [if_neg hov] at h
        exact radix16Digits_le h (by omega)

theorem fromStrRadix16_le {s : List Char} {maxVal v : Nat}
    (h : fromStrRadix16 s maxVal = some v) : v ≤ maxVal := by
  cases s with
  | nil => simp [fromStrRadix16] at h
  | cons c rest =>
    by_cases hc : c = '+'
    · subst hc
      by_cases hr : rest = []
      · simp [fromStrRadix16, hr] at h
      · rw [fromStrRadix16, if_pos rfl, if_neg hr] at h
        exact radix16Digits_le h (Nat.zero_le _)
    · rw [fromStrRadix16, if_neg hc] at h
      exact radix16Digits_le h (Nat.zero_le _)

theorem parse_hex_u8_ok_iff {hex : List Char} {off ln v : Nat} :
    parse_hex_u8 hex off ln = .ok v ↔
      ∃ w, byteSlice hex off (off + 2) = some w ∧ fromStrRadix16 w 255 = some v := by
  rw [parse_hex_u8]
  cases hs : byteSlice hex off (off + 2) with
  | none => simp
  | some w =>
    cases hr : fromStrRadix16 w 255 with
    | none => simp [hr]
    | some v' => simp [hr, eq_comm]

theorem parse_hex_u8_ok_le {hex : List Char} {off ln v : Nat}
    (h : parse_hex_u8 hex off ln = .ok v) : v ≤ 255 := by
  obtain ⟨w, -, hr⟩ := parse_hex_u8_ok_iff.mp h
  exact fromStrRadix16_le hr

theorem parse_hex_u16_ok_iff {hex : List Char} {off ln v : Nat} :
    parse_hex_u16 hex off ln = .ok v ↔
      ∃ w, byteSlice hex off (off + 4) = some w ∧ fromStrRadix16 w 65535 = some v := by
  rw [parse_hex_u16]
  cases hs : byteSlice hex off (off + 4) with
  | none => simp
  | some w =>
    cases hr : fromStrRadix16 w 65535 with
    | none => simp [hr]
    | some v' => simp [hr, eq_comm]

/-! ## Inversion of the record decoder -/

theorem readDataBytes_ok_all {hex : List Char} {ln : Nat} :
    ∀ {count i : Nat} {l : List Nat}, readDataBytes hex ln i count = .ok l →
      ∀ j, j < count → ∃ v, parse_hex_u8 hex (8 + (i + j) * 2) ln = .ok v
  | 0, _, _, _, j, hj => absurd hj (Nat.not_lt_zero j)
  | count + 1, i, l, h, j, hj => by
    rw [readDataBytes] at h
    rcases bind_eq_ok.mp h with ⟨b, hb, h⟩
    rcases bind_eq_ok.mp h with ⟨rest, hrest, h⟩
    cases j with
    | zero => exact ⟨b, by simpa using hb⟩
    | succ j' =>
      have hih := readDataBytes_ok_all hrest j' (by omega)
      have heq : i + 1 + j' = i + (j' + 1) := by omega
      rw [heq] at hih
      exact hih

theorem decodeLine_ok_inv {line : List Char} {ln c a t : Nat} {d : List Nat} {cs : Nat}
    (h : decodeLine line ln = .ok (c, a, t, d, cs)) :
    ∃ hex, line = ':' :: hex ∧ ¬ strByteLen hex < 10 ∧
      parse_hex_u8 hex 0 ln = .ok c ∧ parse_hex_u16 hex 2 ln = .ok a ∧
      parse_hex_u8 hex 6 ln = .ok t ∧ ¬ strByteLen hex < 8 + c * 2 + 2 ∧
      readDataBytes hex ln 0 c = .ok d ∧ parse_hex_u8 hex (8 + c * 2) ln = .ok cs := by
  cases line with
  | nil => simp [decodeLine] at h
  | cons c0 hex =>
    rw [decodeLine] at h
    by_cases hc0 : c0 = ':'
    case neg => rw [if_neg hc0] at h; cases h
    subst hc0
    rw [if_pos rfl] at h
    by_cases h10 : strByteLen hex < 10
    · rw [if_pos h10] at h; cases h
    rw [if_neg h10] at h
    rcases bind_eq_ok.mp h with ⟨c', hch, h⟩
    rcases bind_eq_ok.mp h with ⟨a', hah, h⟩
    rcases bind_eq_ok.mp h with ⟨t', hth, h⟩
    by_cases htr : strByteLen hex < 8 + c' * 2 + 2
    · rw [if_pos htr] at h; cases h
    rw [if_neg htr] at h
    rcases bind_eq_ok.mp h with ⟨d', hdh, h⟩
    rcases bind_eq_ok.mp h with ⟨cs', hcsh, h⟩
    simp only [pure_eq_ok, Outcome.ok.injEq, Prod.mk.injEq] at h
    obtain ⟨rfl, rfl, rfl, rfl, rfl⟩ := h
    exact ⟨hex, rfl, h10, hch, hah, hth, htr, hdh, hcsh⟩

theorem parse_record_ok_inv {line : List Char} {ln : Nat} {r : RawRecord}
    (h : parse_record line ln = .ok r) :
    ∃ c cs, decodeLine line ln = .ok (c, r.address, r.record_type, r.data, cs) ∧
      (c + r.address / 256 + r.address % 256 + r.record_type
        + r.data.sum + cs) % 256 = 0 := by
  rw [parse_record] at h
  rcases bind_eq_ok.mp h with ⟨⟨c, a, t, d, cs⟩, hdec, h⟩
  dsimp only at h
  by_cases hck : (c + a / 256 + a % 256 + t + d.sum + cs) % 256 ≠ 0
  · rw [if_pos hck] at h; cases h
  · rw [if_neg hck] at h
    simp only [pure_eq_ok, Outcome.ok.injEq] at h
    subst h
    exact ⟨c, cs, hdec, by dsimp only; omega⟩

/-! ## C9: `FirmwareImage::parse` can panic -/

/-- C9: the claim states `FirmwareImage::parse` never panics; the code slices
the hex payload at fixed byte offsets, and on the line `:0é23456789` the
two-byte window at offset 0 ends inside the two-byte UTF-8 encoding of `é`,
which is a character-boundary panic in Rust.  This theorem evaluates the model
at that failing input. -/
theorem c9_parse_panics_on_multibyte_char :
    parse (":0é23456789".toList) = .panicked := by decide

/-! ## C8: non-hex characters and `InvalidHex` -/

/-- C8 counterexample: the line `:+000000000` contains `+`, which is not a
hexadecimal digit, inside the byte-count field, yet `parse` succeeds, because
`u8::from_str_radix` accepts an optional leading `+` sign.  This refutes the
claim that any non-hex character in a decoded field yields an invalid-hex
error. -/
theorem c8_plus_sign_line_parses :
    parse (":+000000000".toList) = .ok ⟨[], 0⟩ ∧
    hexDigitVal '+' = none ∧ (":+000000000".toList)[1]? = some '+' := by
  refine ⟨by decide, by decide, by decide⟩

/-- C8 (amended): a decoded field window whose characters are not an optional
leading `+` sign followed by hex digits is rejected: (1) a successfully parsed
window has only hex digits apart from an optional leading `+`; (2)
`parse_hex_u8` returns the invalid-hex error exactly when the window slices
cleanly but the radix-16 parse fails; (3) a successful `parse_hex_u8` means
the radix-16 parse accepted the window; (4) a successful `parse_record` means
every decoded field window (byte count, address, type, each payload byte, and
checksum) was accepted. -/
theorem c8_hex_digit_discipline :
    (∀ (w : List Char) (maxVal v : Nat), fromStrRadix16 w maxVal = some v →
      ∀ (i : Nat) (c : Char), w[i]? = some c →
        (hexDigitVal c).isSome = true ∨ (c = '+' ∧ i = 0)) ∧
    (∀ (hex : List Char) (off ln : Nat),
      parse_hex_u8 hex off ln = .err (.invalidHex ln off) ↔
        ∃ w, byteSlice hex off (off + 2) = some w ∧ fromStrRadix16 w 255 = none) ∧
    (∀ (hex : List Char) (off ln v : Nat), parse_hex_u8 hex off ln = .ok v →
      ∃ w, byteSlice hex off (off + 2) = some w ∧ fromStrRadix16 w 255 = some v) ∧
    (∀ (line : List Char) (ln : Nat) (r : RawRecord), parse_record line ln = .ok r →
      ∃ hex c, line = ':' :: hex ∧
        parse_hex_u8 hex 0 ln = .ok c ∧
        (∃ a, parse_hex_u16 hex 2 ln = .ok a) ∧
        (∃ t, parse_hex_u8 hex 6 ln = .ok t) ∧
        (∀ i, i < c → ∃ v, parse_hex_u8 hex (8 + i * 2) ln = .ok v) ∧
        (∃ cs, parse_hex_u8 hex (8 + c * 2) ln = .ok cs)) := by
  refine ⟨?_, ?_, ?_, ?_⟩
  · intro w maxVal v h i c hget
    cases w with
    | nil => simp at hget
    | cons c0 rest =>
      by_cases hc0 : c0 = '+'
      · subst hc0
        rw [fromStrRadix16, if_pos rfl] at h
        by_cases hr : rest = []
        · simp [hr] at h
        · rw [if_neg hr] at h
          cases i with
          | zero =>
            rw [List.getElem?_cons_zero] at hget
            right
            exact ⟨(Option.some.injEq _ _ ▸ hget).symm, rfl⟩
          | succ i' =>
            rw [List.getElem?_cons_succ] at hget
            exact Or.inl (radix16Digits_mem_isSome h c (List.getElem?_mem hget))
      · rw [fromStrRadix16, if_neg hc0] at h
        exact Or.inl (radix16Digits_mem_isSome h c (List.getElem?_mem hget))
  · intro hex off ln
    rw [parse_hex_u8]
    cases hs : byteSlice hex off (off + 2) with
    | none => simp
    | some w =>
      cases hr : fromStrRadix16 w 255 with
      | none => simp [hr]
      | some v => simp [hr]
  · intro hex off ln v h
    exact parse_hex_u8_ok_iff.mp h
  · intro line ln r h
    rcases parse_record_ok_inv h with ⟨c, cs, hdec, -⟩
    rcases decodeLine_ok_inv hdec with ⟨hex, rfl, -, hc, ha, ht, -, hd, hcs⟩
    refine ⟨hex, c, rfl, hc, ⟨_, ha⟩, ⟨_, ht⟩, ?_, ⟨_, hcs⟩⟩
    intro i hi
    have hall := readDataBytes_ok_all hd i hi
    simpa using hall

/-- C8 witness: the amended discipline applied at a concrete window `"+a"`
that the radix-16 parser accepts: the non-digit it contains is a leading
`+`. -/
theorem c8_hex_digit_discipline_witness :
    fromStrRadix16 ("+a".toList) 255 = some 10 ∧
    ("+a".toList)[1]? = some 'a' ∧
    ((hexDigitVal 'a').isSome = true ∨ ('a' = '+' ∧ 1 = 0)) :=
  ⟨by decide, by decide,
    c8_hex_digit_discipline.1 ("+a".toList) 255 10 (by decide) 1 'a' (by decide)⟩

/-! ## C7: checksum mismatch characterisation -/

/-- C7: for every line whose fields decode (byte count, 16-bit address, type,
payload, checksum byte), `parse_record` fails with the checksum-mismatch error
exactly when the 8-bit sum of byte count, address high byte, address low
byte, type, payload bytes and checksum byte is nonzero mod 256; moreover when
the sum is zero the checksum byte is the unique byte value balancing the sum,
so changing it (e.g. by editing one of its hex digits) makes the line fail. -/
theorem c7_checksum_mismatch_iff :
    ∀ (line : List Char) (ln c a t : Nat) (d : List Nat) (cs : Nat),
      decodeLine line ln = .ok (c, a, t, d, cs) →
      ((parse_record line ln = .err (.checksumMismatch ln)) ↔
        (c + a / 256 + a % 256 + t + d.sum + cs) % 256 ≠ 0) ∧
      ((c + a / 256 + a % 256 + t + d.sum + cs) % 256 = 0 →
        ∀ cs', cs' < 256 → (c + a / 256 + a % 256 + t + d.sum + cs') % 256 = 0 →
          cs' = cs) := by
  intro line ln c a t d cs hdec
  constructor
  · rw [parse_record, hdec, ok_bind]
    dsimp only
    by_cases hck : (c + a / 256 + a % 256 + t + d.sum + cs) % 256 ≠ 0
    · rw [if_pos hck]; simp [hck]
    · rw [if_neg hck]; simp [hck]
  · intro h0 cs' hlt h0'
    have hcs : cs ≤ 255 := by
      rcases decodeLine_ok_inv hdec with ⟨hex, -, -, -, -, -, -, -, hcsp⟩
      exact parse_hex_u8_ok_le hcsp
    omega

/-- C7 witness: the line `:0000000001` decodes with checksum byte `01` and an
8-bit sum of 1, and `parse_record` rejects it with the checksum-mismatch
error. -/
theorem c7_checksum_mismatch_iff_witness :
    decodeLine (":0000000001".toList) 1 = .ok (0, 0, 0, [], 1) ∧
    parse_record (":0000000001".toList) 1 = .err (.checksumMismatch 1) :=
  ⟨by decide,
    ((c7_checksum_mismatch_iff (":0000000001".toList) 1 0 0 0 [] 1
      (by decide)).1).mpr (by decide)⟩

/-! ## C10: characters after the checksum are ignored -/

theorem byteDrop_append {s t : List Char} :
    ∀ {a : Nat} {u : List Char}, byteDrop s a = some u →
      byteDrop (s ++ t) a = some (u ++ t) := by
  induction s with
  | nil =>
    intro a u h
    cases a with
    | zero =>
      rw [byteDrop] at h ⊢
      cases h
      rfl
    | succ a' => rw [byteDrop] at h; cases h
  | cons c rest ih =>
    intro a u h
    cases a with
    | zero =>
      rw [byteDrop] at h ⊢
      cases h
      rfl
    | succ a' =>
      rw [byteDrop] at h
      rw [List.cons_append, byteDrop]
      by_cases hb : byteLen c ≤ a' + 1
      · rw [if_pos hb] at h ⊢
        exact ih h
      · rw [if_neg hb] at h; cases h

theorem byteTake_append {s t : List Char} :
    ∀ {n : Nat} {u : List Char}, byteTake s n = some u →
      byteTake (s ++ t) n = some u := by
  induction s with
  | nil =>
    intro n u h
    cases n with
    | zero => rw [byteTake] at h ⊢; exact h
    | succ n' => rw [byteTake] at h; cases h
  | cons c rest ih =>
    intro n u h
    cases n with
    | zero => rw [byteTake] at h ⊢; exact h
    | succ n' =>
      rw [byteTake] at h
      rw [List.cons_append, byteTake]
      by_cases hb : byteLen c ≤ n' + 1
      · rw [if_pos hb] at h ⊢
        cases ht : byteTake rest (n' + 1 - byteLen c) with
        | none => rw [ht] at h; cases h
        | some u' =>
          rw [ht] at h
          rw [ih ht]
          exact h
      · rw [if_neg hb] at h; cases h

theorem byteSlice_append {s t : List Char} {a b : Nat} {w : List Char}
    (h : byteSlice s a b = some w) : byteSlice (s ++ t) a b = some w := by
  rw [byteSlice] at h ⊢
  by_cases hab : a ≤ b
  · rw [if_pos hab] at h ⊢
    cases hd : byteDrop s a with
    | none => rw [hd] at h; cases h
    | some u =>
      rw [hd, Option.some_bind] at h
      rw [byteDrop_append hd, Option.some_bind]
      exact byteTake_append h
  · rw [if_neg hab] at h; cases h

theorem parse_hex_u8_append {hex s : List Char} {off ln v : Nat}
    (h : parse_hex_u8 hex off ln = .ok v) : parse_hex_u8 (hex ++ s) off ln = .ok v :=
  match parse_hex_u8_ok_iff.mp h with
  | ⟨w, hs, hr⟩ => parse_hex_u8_ok_iff.mpr ⟨w, byteSlice_append hs, hr⟩

theorem parse_hex_u16_append {hex s : List Char} {off ln v : Nat}
    (h : parse_hex_u16 hex off ln = .ok v) : parse_hex_u16 (hex ++ s) off ln = .ok v :=
  match parse_hex_u16_ok_iff.mp h with
  | ⟨w, hs, hr⟩ => parse_hex_u16_ok_iff.mpr ⟨w, byteSlice_append hs, hr⟩

theorem readDataBytes_append {hex s : List Char} {ln : Nat} :
    ∀ {count i : Nat} {l : List Nat}, readDataBytes hex ln i count = .ok l →
      readDataBytes (hex ++ s) ln i count = .ok l
  | 0, i, l, h => by rw [readDataBytes] at h ⊢; exact h
  | count + 1, i, l, h => by
    rw [readDataBytes] at h ⊢
    rcases bind_eq_ok.mp h with ⟨b, hb, h⟩
    rcases bind_eq_ok.mp h with ⟨rest, hrest, h⟩
    rw [parse_hex_u8_append hb, ok_bind, readDataBytes_append hrest, ok_bind]
    exact h

theorem strByteLen_append (s t : List Char) :
    strByteLen (s ++ t) = strByteLen s + strByteLen t := by
  simp [strByteLen]

theorem decodeLine_append {line s : List Char} {ln : Nat}
    {tup : Nat × Nat × Nat × List Nat × Nat}
    (h : decodeLine line ln = .ok tup) : decodeLine (line ++ s) ln = .ok tup := by
  obtain ⟨c, a, t, d, cs⟩ := tup
  rcases decodeLine_ok_inv h with ⟨hex, rfl, h10, hc, ha, ht, htr, hd, hcs⟩
  have hlen := strByteLen_append hex s
  rw [List.cons_append, decodeLine, if_pos rfl, if_neg (by omega)]
  rw [parse_hex_u8_append hc, ok_bind, parse_hex_u16_append ha, ok_bind,
    parse_hex_u8_append ht, ok_bind]
  rw [if_neg (by omega)]
  rw [readDataBytes_append hd, ok_bind, parse_hex_u8_append hcs, ok_bind]
  rfl

/-- C10: only the declared record length is decoded, so appending any extra
characters after a record's checksum digits leaves the result of
`parse_record` unchanged for every line it accepts. -/
theorem c10_trailing_chars_ignored :
    ∀ (line suffix : List Char) (ln : Nat) (r : RawRecord),
      parse_record line ln = .ok r → parse_record (line ++ suffix) ln = .ok r := by
  intro line suffix ln r h
  rw [parse_record] at h ⊢
  rcases bind_eq_ok.mp h with ⟨⟨c, a, t, d, cs⟩, hdec, h⟩
  rw [decodeLine_append hdec, ok_bind]
  exact h

/-- C10 witness: the empty data record `:0000000000` still parses, with the
same result, after appending `xyz!`. -/
theorem c10_trailing_chars_ignored_witness :
    parse_record (":0000000000".toList) 1 = .ok ⟨0, 0, []⟩ ∧
    parse_record (":0000000000".toList ++ "xyz!".toList) 1 = .ok ⟨0, 0, []⟩ :=
  ⟨by decide, c10_trailing_chars_ignored _ _ 1 _ (by decide)⟩

/-! ## C6: extended linear address records -/

theorem parse_record_ok_trim_ne {line : List Char} {ln : Nat} {r : RawRecord}
    (h : parse_record (trimList line) ln = .ok r) :
    ((trimList line).isEmpty = true) → False := by
  rcases parse_record_ok_inv h with ⟨c, cs, hdec, -⟩
  rcases decodeLine_ok_inv hdec with ⟨hex, heq, -⟩
  intro hemp
  rw [heq] at hemp
  cases hemp

/-- C6 counterexample: a type-`0x04` record whose payload bytes are literally
`00 60` (record `:0200000400609A`) followed by a data record at 16-bit address
`0x0000` yields absolute address `0x00600000`, not `0x60000000` as the claim's
example states; `0x60000000` requires payload bytes `60 00`. -/
theorem c6_payload_byte_order_counterexample :
    parseSegments (":0200000400609A\n:0000000000\n".toList) =
      .ok [(0x00600000, [])] ∧ (0x00600000 : Nat) ≠ 0x60000000 :=
  ⟨by decide, by decide⟩

/-- C6 (amended): a type-`0x04` record with two payload bytes `b0 b1` replaces
the extended-address base with `b0<<24 | b1<<16` regardless of the previous
base; a data record combines the current base (bitwise or) with its 16-bit
address; a type-`0x04` record whose payload is not exactly two bytes is a
parse error; and a `0x04` record with payload bytes `60 00` (the spec's
fixture `:0200000460009A`) followed by a data record at 16-bit address `0`
yields absolute address `0x60000000`. -/
theorem c6_extended_linear_address :
    (∀ (line : List Char) (rest : List (List Char)) (ln ext : Nat)
        (segs : List (Nat × List Nat)) (a b0 b1 : Nat),
      parse_record (trimList line) ln = .ok ⟨a, 4, [b0, b1]⟩ →
      parseLines (line :: rest) ln ext segs =
        parseLines rest (ln + 1) ((b0 <<< 24) ||| (b1 <<< 16)) segs) ∧
    (∀ (line : List Char) (rest : List (List Char)) (ln ext : Nat)
        (segs : List (Nat × List Nat)) (a : Nat) (d : List Nat),
      parse_record (trimList line) ln = .ok ⟨a, 0, d⟩ →
      parseLines (line :: rest) ln ext segs =
        parseLines rest (ln + 1) ext (segs ++ [(ext ||| a, d)])) ∧
    (∀ (line : List Char) (rest : List (List Char)) (ln ext : Nat)
        (segs : List (Nat × List Nat)) (a : Nat) (d : List Nat),
      parse_record (trimList line) ln = .ok ⟨a, 4, d⟩ → d.length ≠ 2 →
      parseLines (line :: rest) ln ext segs = .err (.extAddrLen ln)) ∧
    (parseSegments (":0200000460009A\n:0000000000\n".toList) =
      .ok [(0x60000000, [])] ∧
     parse (":0200000460009A\n:0000000000\n".toList) = .ok ⟨[], 0x60000000⟩) := by
  refine ⟨?_, ?_, ?_, by decide, by decide⟩
  · intro line rest ln ext segs a b0 b1 h
    rw [parseLines]
    rw [if_neg (parse_record_ok_trim_ne h), h, ok_bind]
    norm_num
  · intro line rest ln ext segs a d h
    rw [parseLines]
    rw [if_neg (parse_record_ok_trim_ne h), h, ok_bind]
    norm_num
  · intro line rest ln ext segs a d h hlen
    rw [parseLines]
    rw [if_neg (parse_record_ok_trim_ne h), h, ok_bind]
    norm_num [hlen]

/-- C6 witness: the three general parts applied at concrete records — the
`04 00 60` extended-address record (from any previous base 7), a data record
under base `7`, and a one-byte `04` record — plus their decoded forms. -/
theorem c6_extended_linear_address_witness :
    parse_record (trimList (":0200000460009A".toList)) 1 = .ok ⟨0, 4, [0x60, 0]⟩ ∧
    parseLines [":0200000460009A".toList] 1 7 [] =
      parseLines [] 2 ((0x60 <<< 24) ||| (0 <<< 16)) [] ∧
    parse_record (trimList (":0000000000".toList)) 3 = .ok ⟨0, 0, []⟩ ∧
    parseLines [":0000000000".toList] 3 7 [] = parseLines [] 4 7 ([] ++ [(7 ||| 0, [])]) ∧
    parse_record (trimList (":0100000400FB".toList)) 5 = .ok ⟨0, 4, [0]⟩ ∧
    parseLines [":0100000400FB".toList] 5 7 [] = .err (.extAddrLen 5) :=
  ⟨by decide,
    c6_extended_linear_address.1 _ [] 1 7 [] 0 0x60 0 (by decide),
    by decide,
    c6_extended_linear_address.2.1 _ [] 3 7 [] 0 [] (by decide),
    by decide,
    c6_extended_linear_address.2.2.1 _ [] 5 7 [] 0 [0] (by decide) (by decide)⟩

/-! ## C1: block alignment and sentinel gap fill -/

theorem copySegs_length :
    ∀ {segs : List (Nat × List Nat)} {base : Nat} {buf out : List Nat},
      copySegs segs base buf = .ok out → out.length = buf.length
  | [], _, buf, out, h => by
    rw [copySegs] at h
    cases h
    rfl
  | (a, d) :: rest, base, buf, out, h => by
    rw [copySegs] at h
    by_cases hb : a - base + d.length ≤ buf.length
    · rw [if_pos hb] at h
      rw [copySegs_length h]
      simp only [List.length_append, List.length_take, List.length_drop]
      omega
    · rw [if_neg hb] at h; cases h

theorem copySegs_getElem :
    ∀ {segs : List (Nat × List Nat)} {base : Nat} {buf out : List Nat},
      copySegs segs base buf = .ok out →
      ∀ i : Nat, (∀ p ∈ segs, ¬(p.1 - base ≤ i ∧ i < p.1 - base + p.2.length)) →
        out[i]? = buf[i]?
  | [], _, buf, out, h, i, _ => by
    rw [copySegs] at h
    cases h
    rfl
  | (a, d) :: rest, base, buf, out, h, i, hunc => by
    rw [copySegs] at h
    by_cases hb : a - base + d.length ≤ buf.length
    · rw [if_pos hb] at h
      rw [copySegs_getElem h i (fun p hp => hunc p (List.mem_cons_of_mem _ hp))]
      have hnc := hunc (a, d) (List.mem_cons_self _ _)
      have htl : (buf.take (a - base)).length = a - base := by
        rw [List.length_take]; omega
      have htl2 : (buf.take (a - base) ++ d).length = a - base + d.length := by
        simp only [List.length_append, htl]
      rcases Nat.lt_or_ge i (a - base) with hlt | hge
      · rw [List.getElem?_append_left (by omega),
          List.getElem?_append_left (by omega),
          List.getElem?_take, if_pos hlt]
      · have hge2 : a - base + d.length ≤ i := by
          rcases Nat.lt_or_ge i (a - base + d.length) with hlt2 | hge2
          · exact absurd ⟨hge, hlt2⟩ hnc
          · exact hge2
        rw [List.getElem?_append_right (by omega), htl2, List.getElem?_drop]
        congr 1
        omega
    · rw [if_neg hb] at h; cases h

/-- C1: whenever `FirmwareImage::parse` succeeds, the image length is a
multiple of `BLOCK_SIZE`, and every image byte not covered by the payload of
some collected data segment equals the erased-flash sentinel `0xFF`. -/
theorem c1_image_block_aligned_and_gap_filled :
    ∀ (content : List Char) (img : FirmwareImage), parse content = .ok img →
      img.data.length % BLOCK_SIZE = 0 ∧
      (∀ segs, parseSegments content = .ok segs →
        ∀ i : Nat,
          (∀ p ∈ segs,
            ¬(p.1 - img.base_address ≤ i ∧
              i < p.1 - img.base_address + p.2.length)) →
          i < img.data.length → img.data[i]? = some 0xFF) := by
  intro content img h
  rw [parse] at h
  rcases bind_eq_ok.mp h with ⟨segs₀, hseg, hbuild⟩
  cases segs₀ with
  | nil => rw [buildImage] at hbuild; cases hbuild
  | cons s rest =>
    rw [buildImage] at hbuild
    cases hcopy : copySegs (s :: rest) (rest.foldl (fun m p => min m p.1) s.1)
        (List.replicate
          (((rest.foldl (fun m p => max m ((p.1 + p.2.length) % 2 ^ 32))
              ((s.1 + s.2.length) % 2 ^ 32) + 2 ^ 32 -
            rest.foldl (fun m p => min m p.1) s.1) % 2 ^ 32 + (BLOCK_SIZE - 1)) /
            BLOCK_SIZE * BLOCK_SIZE) 0xFF) with
    | err e =>
      rw [hcopy] at hbuild
      simp only [Outcome.bind] at hbuild
      cases hbuild
    | panicked =>
      rw [hcopy] at hbuild
      simp only [Outcome.bind] at hbuild
      cases hbuild
    | ok buf =>
      rw [hcopy] at hbuild
      simp only [Outcome.bind, Outcome.ok.injEq] at hbuild
      subst hbuild
      have hlen := copySegs_length hcopy
      rw [List.length_replicate] at hlen
      constructor
      · show buf.length % BLOCK_SIZE = 0
        rw [hlen]
        exact Nat.mul_mod_left _ _
      · intro segs hseg' i hunc hi
        have hsame : segs = s :: rest := by
          rw [hseg] at hseg'
          exact (Outcome.ok.injEq _ _ ▸ hseg').symm
        subst hsame
        have hi2 : i < buf.length := hi
        show buf[i]? = some 0xFF
        rw [copySegs_getElem hcopy i hunc, List.getElem?_replicate,
          if_pos (by omega)]

/-- C1 witness: the one-record input `:0000000000` (an empty data record at
address 0) parses to the empty image, whose length is a multiple of
`BLOCK_SIZE`. -/
theorem c1_image_block_aligned_and_gap_filled_witness :
    parse (":0000000000".toList) = .ok ⟨[], 0⟩ ∧
    (FirmwareImage.mk [] 0).data.length % BLOCK_SIZE = 0 :=
  ⟨by decide,
    (c1_image_block_aligned_and_gap_filled (":0000000000".toList) ⟨[], 0⟩
      (by decide)).1⟩

/-! ## C3: timeout tiers of `write_with_retry` -/

theorem retryLoop_allErr (tr : Transport) (rpt : List Nat) (t : Nat)
    (h : ∀ j r, ∃ bp, tr j r = .err bp) (elapsed k lr : Nat)
    (hlt : elapsed < t + RETRY_SLEEP) :
    (retryLoop tr rpt t k elapsed lr).2.2 = .error (.timedOut t) ∧
    t ≤ (retryLoop tr rpt t k elapsed lr).2.1 ∧
    (retryLoop tr rpt t k elapsed lr).2.1 < t + RETRY_SLEEP := by
  obtain ⟨bp, hbp⟩ := h k rpt
  rw [retryLoop]
  simp only [hbp]
  by_cases hto : t ≤ elapsed
  · rw [if_pos hto]
    exact ⟨rfl, hto, hlt⟩
  · rw [if_neg hto]
    exact retryLoop_allErr tr rpt t h (elapsed + RETRY_SLEEP) (k + 1) _
      (by simp only [RETRY_SLEEP] at *; omega)
termination_by t + RETRY_SLEEP - elapsed
decreasing_by simp only [RETRY_SLEEP] at *; omega

/-- C3 counterexample: the claim says only block 0 gets the long erase budget;
but for block index 1 with an always-failing transport, `write_with_retry`
times out with the long `ERASE_TIMEOUT` budget, not the short
`WRITE_TIMEOUT`. -/
theorem c3_block1_gets_long_budget :
    (write_with_retry (fun _ _ => WOut.err false) (List.replicate REPORT_SIZE 0)
      1 0).2.2 = .error (.timedOut ERASE_TIMEOUT) ∧
    ERASE_TIMEOUT ≠ WRITE_TIMEOUT := by
  constructor
  · rw [write_with_retry, if_pos (by decide)]
    exact (retryLoop_allErr _ _ _ (fun j r => ⟨false, rfl⟩) 0 0 0 (by decide)).1
  · decide

/-- C3 (amended): the long erase budget applies to every block index
`i ≤ ERASE_BLOCK_COUNT` (blocks 0 through 4), and the short budget to every
later block: with a transport whose `write_report` always fails,
`write_with_retry` returns the timed-out error carrying the applicable
budget, after an elapsed time within one retry-sleep of that budget. -/
theorem c3_timeout_tier_by_erase_block_count :
    ∀ (tr : Transport) (rpt : List Nat) (i k : Nat),
      (∀ j r, ∃ bp, tr j r = .err bp) →
      (write_with_retry tr rpt i k).2.2 =
        .error (.timedOut
          (if i ≤ ERASE_BLOCK_COUNT then ERASE_TIMEOUT else WRITE_TIMEOUT)) ∧
      (if i ≤ ERASE_BLOCK_COUNT then ERASE_TIMEOUT else WRITE_TIMEOUT) ≤
        (write_with_retry tr rpt i k).2.1 ∧
      (write_with_retry tr rpt i k).2.1 <
        (if i ≤ ERASE_BLOCK_COUNT then ERASE_TIMEOUT else WRITE_TIMEOUT) +
          RETRY_SLEEP := by
  intro tr rpt i k h
  rw [write_with_retry]
  exact retryLoop_allErr tr rpt _ h 0 k 0
    (by have : 0 < RETRY_SLEEP := by decide
        omega)

/-- C3 witness: the amended tiering applied to block 5 with an always-failing
transport: the returned budget is the short `WRITE_TIMEOUT`. -/
theorem c3_timeout_tier_witness :
    (∀ j r, ∃ bp, (fun (_ : Nat) (_ : List Nat) => WOut.err false) j r = .err bp) ∧
    (write_with_retry (fun _ _ => WOut.err false) (List.replicate REPORT_SIZE 0)
      5 0).2.2 = .error (.timedOut WRITE_TIMEOUT) := by
  refine ⟨fun _ _ => ⟨false, rfl⟩, ?_⟩
  have hc := (c3_timeout_tier_by_erase_block_count (fun _ _ => WOut.err false)
    (List.replicate REPORT_SIZE 0) 5 0 (fun j r => ⟨false, rfl⟩)).1
  rw [if_neg (by decide)] at hc
  exact hc

/-! ## C4: `reboot` never fails -/

theorem rebootLoop_ok (tr : Transport) (rpt : List Nat) (k elapsed lr : Nat) :
    (rebootLoop tr rpt k elapsed lr).2.2 = .ok () := by
  cases hw : tr k rpt with
  | ok n =>
    rw [rebootLoop]
    simp only [hw]
  | err bp =>
    rw [rebootLoop]
    simp only [hw]
    by_cases hto : WRITE_TIMEOUT ≤ elapsed
    · rw [if_pos hto]
    · rw [if_neg hto]
      exact rebootLoop_ok tr rpt (k + 1) (elapsed + RETRY_SLEEP) _
termination_by WRITE_TIMEOUT + RETRY_SLEEP - elapsed
decreasing_by simp only [WRITE_TIMEOUT, RETRY_SLEEP] at *; omega

theorem rebootLoop_allErr (tr : Transport) (rpt : List Nat)
    (h : ∀ j r, ∃ bp, tr j r = .err bp) (elapsed k lr : Nat)
    (hlt : elapsed < WRITE_TIMEOUT + RETRY_SLEEP) :
    WRITE_TIMEOUT ≤ (rebootLoop tr rpt k elapsed lr).2.1 ∧
    (rebootLoop tr rpt k elapsed lr).2.1 < WRITE_TIMEOUT + RETRY_SLEEP := by
  obtain ⟨bp, hbp⟩ := h k rpt
  rw [rebootLoop]
  simp only [hbp]
  by_cases hto : WRITE_TIMEOUT ≤ elapsed
  · rw [if_pos hto]
    exact ⟨hto, hlt⟩
  · rw [if_neg hto]
    exact rebootLoop_allErr tr rpt h (elapsed + RETRY_SLEEP) (k + 1) _
      (by simp only [WRITE_TIMEOUT, RETRY_SLEEP] at *; omega)
termination_by WRITE_TIMEOUT + RETRY_SLEEP - elapsed
decreasing_by simp only [WRITE_TIMEOUT, RETRY_SLEEP] at *; omega

/-- C4: `reboot` returns success for every transport behaviour, including one
whose `write_report` fails on every call; in the always-failing case it
returns success once the short `WRITE_TIMEOUT` budget has elapsed (within one
retry-sleep). -/
theorem c4_reboot_always_succeeds :
    ∀ (tr : Transport) (k : Nat),
      (reboot tr k).2.2 = .ok () ∧
      ((∀ j r, ∃ bp, tr j r = .err bp) →
        WRITE_TIMEOUT ≤ (reboot tr k).2.1 ∧
        (reboot tr k).2.1 < WRITE_TIMEOUT + RETRY_SLEEP) := by
  intro tr k
  constructor
  · rw [reboot]
    exact rebootLoop_ok _ _ _ _ _
  · intro h
    rw [reboot]
    exact rebootLoop_allErr tr _ h 0 k 0 (by decide)

/-- C4 witness: `reboot` against a transport failing every call returns
success with the short budget elapsed. -/
theorem c4_reboot_always_succeeds_witness :
    (∀ j r, ∃ bp, (fun (_ : Nat) (_ : List Nat) => WOut.err true) j r = .err bp) ∧
    (reboot (fun _ _ => WOut.err true) 0).2.2 = .ok () ∧
    WRITE_TIMEOUT ≤ (reboot (fun _ _ => WOut.err true) 0).2.1 :=
  ⟨fun _ _ => ⟨true, rfl⟩,
    (c4_reboot_always_succeeds (fun _ _ => WOut.err true) 0).1,
    ((c4_reboot_always_succeeds (fun _ _ => WOut.err true) 0).2
      (fun _ _ => ⟨true, rfl⟩)).1⟩

/-! ## Report-frame and flash-trace helpers -/

theorem fill_block_report_length {report : List Nat} (addr : Nat) {data : List Nat}
    (h : 1 + HEADER_SIZE + data.length ≤ report.length) :
    (fill_block_report report addr data).length = report.length := by
  rw [fill_block_report]
  simp only [List.length_append, List.length_take, List.length_drop,
    List.length_set, List.length_replicate]
  omega

theorem fill_block_report_congr {r r' : List Nat} (addr : Nat) (data : List Nat)
    (h : r.length = r'.length) :
    fill_block_report r addr data = fill_block_report r' addr data := by
  rw [fill_block_report, fill_block_report, h]

/-- Every event in a `flashGo` trace is either inherited from the accumulator
or belongs to a non-skipped block at or after the current index, with the
report framed from a fresh zeroed buffer. -/
theorem flashGo_events (tr : Transport) (img : FirmwareImage) :
    ∀ (remaining i k : Nat) (report : List Nat) (trace : List FEv),
      report.length = REPORT_SIZE →
      ∀ ev ∈ (flashGo tr img remaining i k report trace).1,
        ev ∈ trace ∨
        ∃ j, (ev = FEv.progress j ∨
            ev = FEv.blockWrite j (fill_block_report (List.replicate REPORT_SIZE 0)
              (j * BLOCK_SIZE) ((img.data.drop (j * BLOCK_SIZE)).take BLOCK_SIZE))) ∧
          i ≤ j ∧
          (j = 0 ∨
            ¬((img.data.drop (j * BLOCK_SIZE)).take BLOCK_SIZE).all
              (fun b => b == 0xFF) = true) := by
  intro remaining
  induction remaining with
  | zero =>
    intro i k report trace hrep ev hev
    rw [flashGo] at hev
    exact Or.inl hev
  | succ r ih =>
    intro i k report trace hrep ev hev
    rw [flashGo] at hev
    by_cases hskip :
        0 < i ∧ ((img.data.drop (i * BLOCK_SIZE)).take BLOCK_SIZE).all
          (fun b => b == 0xFF) = true
    · rw [if_pos hskip] at hev
      rcases ih (i + 1) k report trace hrep ev hev with h | ⟨j, hj, hij, hcond⟩
      · exact Or.inl h
      · exact Or.inr ⟨j, hj, by omega, hcond⟩
    · rw [if_neg hskip] at hev
      have hcond : i = 0 ∨
          ¬((img.data.drop (i * BLOCK_SIZE)).take BLOCK_SIZE).all
            (fun b => b == 0xFF) = true := by
        by_cases hi : i = 0
        · exact Or.inl hi
        · right
          intro hall
          exact hskip ⟨by omega, hall⟩
      have hrptlen : (fill_block_report report (i * BLOCK_SIZE)
          ((img.data.drop (i * BLOCK_SIZE)).take BLOCK_SIZE)).length = REPORT_SIZE := by
        rw [fill_block_report_length _ ?_, hrep]
        rw [hrep, REPORT_SIZE]
        have := List.length_take_le BLOCK_SIZE (img.data.drop (i * BLOCK_SIZE))
        omega
      have hrptfresh : fill_block_report report (i * BLOCK_SIZE)
          ((img.data.drop (i * BLOCK_SIZE)).take BLOCK_SIZE) =
          fill_block_report (List.replicate REPORT_SIZE 0) (i * BLOCK_SIZE)
            ((img.data.drop (i * BLOCK_SIZE)).take BLOCK_SIZE) :=
        fill_block_report_congr _ _ (by rw [hrep, List.length_replicate])
      have hmem_new : ∀ ev',
          ev' ∈ trace ++ [FEv.progress i,
            FEv.blockWrite i (fill_block_report report (i * BLOCK_SIZE)
              ((img.data.drop (i * BLOCK_SIZE)).take BLOCK_SIZE))] →
          ev' ∈ trace ∨
          ∃ j, (ev' = FEv.progress j ∨
              ev' = FEv.blockWrite j (fill_block_report (List.replicate REPORT_SIZE 0)
                (j * BLOCK_SIZE) ((img.data.drop (j * BLOCK_SIZE)).take BLOCK_SIZE))) ∧
            i ≤ j ∧
            (j = 0 ∨
              ¬((img.data.drop (j * BLOCK_SIZE)).take BLOCK_SIZE).all
                (fun b => b == 0xFF) = true) := by
        intro ev' hev'
        rcases List.mem_append.mp hev' with h | h
        · exact Or.inl h
        · rcases List.mem_cons.mp h with rfl | h
          · exact Or.inr ⟨i, Or.inl rfl, Nat.le_refl i, hcond⟩
          · rcases List.mem_cons.mp h with rfl | h
            · exact Or.inr ⟨i, Or.inr (by rw [hrptfresh]), Nat.le_refl i, hcond⟩
            · cases h
      cases hres : (write_with_retry tr
          (fill_block_report report (i * BLOCK_SIZE)
            ((img.data.drop (i * BLOCK_SIZE)).take BLOCK_SIZE)) i k).2.2 with
      | ok u =>
        cases u
        simp only [hres] at hev
        rcases ih (i + 1) _ _ _ hrptlen ev hev with h | ⟨j, hj, hij, hcond'⟩
        · exact hmem_new ev h
        · exact Or.inr ⟨j, hj, by omega, hcond'⟩
      | error e =>
        simp only [hres] at hev
        exact hmem_new ev hev

/-- The trace accumulator of `flashGo` is a pure prefix: running with
accumulator `trace` appends the same events as running with `[]`, and the
counter and result do not depend on the accumulator. -/
theorem flashGo_trace_append (tr : Transport) (img : FirmwareImage) :
    ∀ (remaining i k : Nat) (report : List Nat) (trace : List FEv),
      (flashGo tr img remaining i k report trace).1 =
        trace ++ (flashGo tr img remaining i k report []).1 ∧
      (flashGo tr img remaining i k report trace).2 =
        (flashGo tr img remaining i k report []).2 := by
  intro remaining
  induction remaining with
  | zero =>
    intro i k report trace
    rw [flashGo, flashGo]
    simp
  | succ r ih =>
    intro i k report trace
    rw [flashGo, flashGo]
    by_cases hskip :
        0 < i ∧ ((img.data.drop (i * BLOCK_SIZE)).take BLOCK_SIZE).all
          (fun b => b == 0xFF) = true
    · rw [if_pos hskip, if_pos hskip]
      exact ih (i + 1) k report trace
    · rw [if_neg hskip, if_neg hskip]
      cases hres : (write_with_retry tr
          (fill_block_report report (i * BLOCK_SIZE)
            ((img.data.drop (i * BLOCK_SIZE)).take BLOCK_SIZE)) i k).2.2 with
      | ok u =>
        cases u
        simp only [hres]
        constructor
        · rw [(ih (i + 1) _ _ (trace ++ [_, _])).1, (ih (i + 1) _ _ ([] ++ [_, _])).1]
          simp
        · rw [(ih (i + 1) _ _ (trace ++ [_, _])).2, (ih (i + 1) _ _ ([] ++ [_, _])).2]
      | error e =>
        simp only [hres]
        simp

/-- With a transport that always succeeds with a full-length write, the trace
of `flashGo` is exactly the progress/write pair of every non-skipped block, in
order, and the result is success. -/
theorem flashGo_alwaysOk (tr : Transport) (img : FirmwareImage)
    (hok : ∀ k r, tr k r = WOut.ok r.length) :
    ∀ (remaining i k : Nat) (report : List Nat),
      report.length = REPORT_SIZE →
      (flashGo tr img remaining i k report []).1 =
        ((List.range' i remaining).filter
          (fun j => decide (j = 0) ||
            ! ((img.data.drop (j * BLOCK_SIZE)).take BLOCK_SIZE).all
              (fun b => b == 0xFF))).bind
          (fun j => [FEv.progress j,
            FEv.blockWrite j (fill_block_report (List.replicate REPORT_SIZE 0)
              (j * BLOCK_SIZE) ((img.data.drop (j * BLOCK_SIZE)).take BLOCK_SIZE))]) ∧
      (flashGo tr img remaining i k report []).2.2 = .ok () := by
  intro remaining
  induction remaining with
  | zero =>
    intro i k report hrep
    rw [flashGo]
    simp [List.range']
  | succ r ih =>
    intro i k report hrep
    rw [flashGo, List.range'_succ]
    have hrptlen : (fill_block_report report (i * BLOCK_SIZE)
        ((img.data.drop (i * BLOCK_SIZE)).take BLOCK_SIZE)).length = REPORT_SIZE := by
      rw [fill_block_report_length _ ?_, hrep]
      rw [hrep, REPORT_SIZE]
      have := List.length_take_le BLOCK_SIZE (img.data.drop (i * BLOCK_SIZE))
      omega
    have hrptfresh : fill_block_report report (i * BLOCK_SIZE)
        ((img.data.drop (i * BLOCK_SIZE)).take BLOCK_SIZE) =
        fill_block_report (List.replicate REPORT_SIZE 0) (i * BLOCK_SIZE)
          ((img.data.drop (i * BLOCK_SIZE)).take BLOCK_SIZE) :=
      fill_block_report_congr _ _ (by rw [hrep, List.length_replicate])
    by_cases hskip :
        0 < i ∧ ((img.data.drop (i * BLOCK_SIZE)).take BLOCK_SIZE).all
          (fun b => b == 0xFF) = true
    · rw [if_pos hskip]
      have hpred : (decide (i = 0) ||
          ! ((img.data.drop (i * BLOCK_SIZE)).take BLOCK_SIZE).all
            (fun b => b == 0xFF)) = false := by
        rcases hskip with ⟨hi, hall⟩
        simp [hall]
        omega
      rw [List.filter_cons_of_neg (by simp [hpred])]
      exact ih (i + 1) k report hrep
    · rw [if_neg hskip]
      have hwres : write_with_retry tr
          (fill_block_report report (i * BLOCK_SIZE)
            ((img.data.drop (i * BLOCK_SIZE)).take BLOCK_SIZE)) i k =
          (k + 1, 0, .ok ()) := by
        rw [write_with_retry, retryLoop, hok]
        simp
      simp only [hwres]
      have hpred : (decide (i = 0) ||
          ! ((img.data.drop (i * BLOCK_SIZE)).take BLOCK_SIZE).all
            (fun b => b == 0xFF)) = true := by
        by_cases hi : i = 0
        · simp [hi]
        · have hall : ¬((img.data.drop (i * BLOCK_SIZE)).take BLOCK_SIZE).all
              (fun b => b == 0xFF) = true := fun hall => hskip ⟨by omega, hall⟩
          simp [hi, hall]
      rw [List.filter_cons_of_pos (by rw [hpred])]
      constructor
      · rw [(flashGo_trace_append tr img r (i + 1) (k + 1) _ ([] ++ [_, _])).1,
          (ih (i + 1) (k + 1) _ hrptlen).1]
        simp [hrptfresh]
      · rw [(flashGo_trace_append tr img r (i + 1) (k + 1) _ ([] ++ [_, _])).2,
          (ih (i + 1) (k + 1) _ hrptlen).2]

/-! ## C5: the block-report wire frame -/

set_option maxRecDepth 8000 in
/-- C5: for a `REPORT_SIZE` buffer and a `BLOCK_SIZE` block at a 24-bit
offset, the frame built by `fill_block_report` is exactly
`1 + HEADER_SIZE + BLOCK_SIZE` bytes: byte 0 is the zero report identifier,
bytes 1-3 are the little-endian 24-bit encoding of the offset, bytes 4
through `HEADER_SIZE` are zero, the final `BLOCK_SIZE` bytes are the block,
and the result is independent of the previous buffer contents (the buffer is
fully re-zeroed); moreover every report recorded by `flash_with_progress` for
block `i` is framed with the image-relative offset `i * BLOCK_SIZE` (not
`base_address + offset`). -/
theorem c5_block_report_frame :
    (∀ (report : List Nat) (addr : Nat) (data : List Nat),
      report.length = REPORT_SIZE → data.length = BLOCK_SIZE → addr < 2 ^ 24 →
      (fill_block_report report addr data).length = 1 + HEADER_SIZE + BLOCK_SIZE ∧
      (fill_block_report report addr data)[0]? = some 0 ∧
      (fill_block_report report addr data)[1]? = some (addr % 256) ∧
      (fill_block_report report addr data)[2]? = some (addr / 256 % 256) ∧
      (fill_block_report report addr data)[3]? = some (addr / 65536 % 256) ∧
      addr % 256 + 256 * (addr / 256 % 256) + 65536 * (addr / 65536 % 256) = addr ∧
      (∀ j, 4 ≤ j → j ≤ HEADER_SIZE →
        (fill_block_report report addr data)[j]? = some 0) ∧
      (fill_block_report report addr data).drop (1 + HEADER_SIZE) = data ∧
      (∀ report', report'.length = REPORT_SIZE →
        fill_block_report report' addr data = fill_block_report report addr data)) ∧
    (∀ (img : FirmwareImage) (tr : Transport) (i : Nat) (rpt : List Nat),
      FEv.blockWrite i rpt ∈ (flash_with_progress tr img).1 →
      rpt = fill_block_report (List.replicate REPORT_SIZE 0) (i * BLOCK_SIZE)
        ((img.data.drop (i * BLOCK_SIZE)).take BLOCK_SIZE)) := by
  constructor
  · intro report addr data hrep hdata haddr
    have hzlen : ((((List.replicate report.length 0).set 1 (addr % 256)).set 2
        (addr / 256 % 256)).set 3 (addr / 65536 % 256)).length = report.length := by
      simp
    have hhead : ∀ j, j ≤ HEADER_SIZE →
        (fill_block_report report addr data)[j]? =
          ((((List.replicate report.length 0).set 1 (addr % 256)).set 2
            (addr / 256 % 256)).set 3 (addr / 65536 % 256))[j]? := by
      intro j hj
      rw [fill_block_report]
      rw [List.getElem?_append_left (by
        rw [List.length_append, List.length_take, hzlen, hrep, REPORT_SIZE]
        simp only [HEADER_SIZE] at hj ⊢
        omega)]
      rw [List.getElem?_append_left (by
        rw [List.length_take, hzlen, hrep, REPORT_SIZE]
        simp only [HEADER_SIZE] at hj ⊢
        omega)]
      rw [List.getElem?_take, if_pos (by simp only [HEADER_SIZE] at hj ⊢; omega)]
    have hrlen : report.length = 1 + HEADER_SIZE + BLOCK_SIZE := by
      rw [hrep, REPORT_SIZE]
    refine ⟨?_, ?_, ?_, ?_, ?_, ?_, ?_, ?_, ?_⟩
    · rw [fill_block_report_length addr (by omega), hrlen]
    · rw [hhead 0 (by simp [HEADER_SIZE]),
        List.getElem?_set_ne (by omega), List.getElem?_set_ne (by omega),
        List.getElem?_set_ne (by omega), List.getElem?_replicate,
        if_pos (by rw [hrep]; decide)]
    · rw [hhead 1 (by simp [HEADER_SIZE]),
        List.getElem?_set_ne (by omega), List.getElem?_set_ne (by omega),
        List.getElem?_set, if_pos rfl,
        if_pos (by rw [List.length_replicate, hrep]; decide)]
    · rw [hhead 2 (by simp [HEADER_SIZE]),
        List.getElem?_set_ne (by omega),
        List.getElem?_set, if_pos rfl,
        if_pos (by rw [List.length_set, List.length_replicate, hrep]; decide)]
    · rw [hhead 3 (by simp [HEADER_SIZE]),
        List.getElem?_set, if_pos rfl,
        if_pos (by rw [List.length_set, List.length_set, List.length_replicate, hrep]; decide)]
    · have h24 : addr < 16777216 := by simpa using haddr
      omega
    · intro j hj4 hjH
      rw [hhead j hjH,
        List.getElem?_set_ne (by omega), List.getElem?_set_ne (by omega),
        List.getElem?_set_ne (by omega), List.getElem?_replicate,
        if_pos (by
          rw [hrep, REPORT_SIZE]
          omega)]
    · rw [fill_block_report]
      have htklen : (((((List.replicate report.length 0).set 1 (addr % 256)).set 2
          (addr / 256 % 256)).set 3 (addr / 65536 % 256)).take (1 + HEADER_SIZE)).length =
          1 + HEADER_SIZE := by
        rw [List.length_take, hzlen, hrep, REPORT_SIZE]
        omega
      have hdl := List.drop_left
        (((((List.replicate report.length 0).set 1 (addr % 256)).set 2
          (addr / 256 % 256)).set 3 (addr / 65536 % 256)).take (1 + HEADER_SIZE))
        (data ++ (((((List.replicate report.length 0).set 1 (addr % 256)).set 2
          (addr / 256 % 256)).set 3 (addr / 65536 % 256)).drop
            (1 + HEADER_SIZE + data.length)))
      rw [htklen] at hdl
      rw [List.append_assoc, hdl]
      rw [List.drop_eq_nil_of_le (by
        rw [hzlen, hrep, REPORT_SIZE, hdata])]
      exact List.append_nil data
    · intro report' hrep'
      exact fill_block_report_congr addr data (by rw [hrep', hrep])
  · intro img tr i rpt hmem
    rcases flashGo_events tr img (img.data.length / BLOCK_SIZE) 0 0
        (List.replicate REPORT_SIZE 0) [] (by rw [List.length_replicate]) _ hmem with
      h | ⟨j, hj, -, -⟩
    · cases h
    · rcases hj with hj | hj
      · cases hj
      · injection hj with h1 h2
        subst h1
        exact h2

/-- C5 witness: the layout theorem applied to a dirty buffer of sevens, block
offset 1024 and a block of threes. -/
theorem c5_block_report_frame_witness :
    ((List.replicate REPORT_SIZE 7 : List Nat).length = REPORT_SIZE) ∧
    ((List.replicate BLOCK_SIZE 3 : List Nat).length = BLOCK_SIZE) ∧
    ((1024 : Nat) < 2 ^ 24) ∧
    (fill_block_report (List.replicate REPORT_SIZE 7) 1024
      (List.replicate BLOCK_SIZE 3)).length = 1 + HEADER_SIZE + BLOCK_SIZE :=
  ⟨by rw [List.length_replicate], by rw [List.length_replicate], by decide,
    (c5_block_report_frame.1 (List.replicate REPORT_SIZE 7) 1024
      (List.replicate BLOCK_SIZE 3) (by rw [List.length_replicate])
      (by rw [List.length_replicate]) (by decide)).1⟩

/-! ## C2: the block-skip rule of `flash_with_progress` -/

/-- C2: for every image with at least one block and every transport, the
engine always processes block 0 first — the trace begins with the progress
callback and the framed write for block 0, even when the block is all
sentinel bytes; a block `i > 0` whose bytes are all `0xFF` is skipped: it
gets no progress callback and no write; and with a transport whose writes
always succeed in full, the trace is exactly the progress/write pair of every
non-skipped block in increasing order and flashing succeeds. -/
theorem c2_block_skip_rule :
    (∀ (tr : Transport) (img : FirmwareImage), 0 < img.data.length / BLOCK_SIZE →
      ∃ rest, (flash_with_progress tr img).1 =
        FEv.progress 0 ::
        FEv.blockWrite 0 (fill_block_report (List.replicate REPORT_SIZE 0) 0
          (img.data.take BLOCK_SIZE)) :: rest) ∧
    (∀ (tr : Transport) (img : FirmwareImage) (i : Nat), 0 < i →
      ((img.data.drop (i * BLOCK_SIZE)).take BLOCK_SIZE).all
        (fun b => b == 0xFF) = true →
      FEv.progress i ∉ (flash_with_progress tr img).1 ∧
      ∀ rp, FEv.blockWrite i rp ∉ (flash_with_progress tr img).1) ∧
    (∀ (tr : Transport) (img : FirmwareImage),
      (∀ k r, tr k r = WOut.ok r.length) →
      (flash_with_progress tr img).1 =
        ((List.range (img.data.length / BLOCK_SIZE)).filter
          (fun j => decide (j = 0) ||
            ! ((img.data.drop (j * BLOCK_SIZE)).take BLOCK_SIZE).all
              (fun b => b == 0xFF))).bind
          (fun j => [FEv.progress j,
            FEv.blockWrite j (fill_block_report (List.replicate REPORT_SIZE 0)
              (j * BLOCK_SIZE) ((img.data.drop (j * BLOCK_SIZE)).take BLOCK_SIZE))]) ∧
      (flash_with_progress tr img).2.2 = .ok ()) := by
  refine ⟨?_, ?_, ?_⟩
  · intro tr img htot
    obtain ⟨r, hr⟩ : ∃ r, img.data.length / BLOCK_SIZE = r + 1 :=
      ⟨img.data.length / BLOCK_SIZE - 1, by omega⟩
    rw [flash_with_progress, hr, flashGo]
    rw [if_neg (by simp)]
    have hfresh : fill_block_report (List.replicate REPORT_SIZE 0) (0 * BLOCK_SIZE)
        ((img.data.drop (0 * BLOCK_SIZE)).take BLOCK_SIZE) =
        fill_block_report (List.replicate REPORT_SIZE 0) 0
          (img.data.take BLOCK_SIZE) := by
      rw [Nat.zero_mul, List.drop_zero]
    cases hres : (write_with_retry tr
        (fill_block_report (List.replicate REPORT_SIZE 0) (0 * BLOCK_SIZE)
          ((img.data.drop (0 * BLOCK_SIZE)).take BLOCK_SIZE)) 0 0).2.2 with
    | ok u =>
      cases u
      simp only [hres]
      rw [hfresh]
      rw [(flashGo_trace_append tr img r 1 _ _ ([] ++ [_, _])).1]
      refine ⟨(flashGo tr img r 1
        (write_with_retry tr (fill_block_report (List.replicate REPORT_SIZE 0) 0
          (img.data.take BLOCK_SIZE)) 0 0).1
        (fill_block_report (List.replicate REPORT_SIZE 0) 0
          (img.data.take BLOCK_SIZE)) []).1, ?_⟩
      simp
    | error e =>
      simp only [hres]
      rw [hfresh]
      exact ⟨[], by simp⟩
  · intro tr img i hi hall
    constructor
    · intro hmem
      rcases flashGo_events tr img (img.data.length / BLOCK_SIZE) 0 0
          (List.replicate REPORT_SIZE 0) [] (by rw [List.length_replicate]) _ hmem with
        h | ⟨j, hj, -, hcond⟩
      · cases h
      · rcases hj with hj | hj
        · injection hj with h1
          subst h1
          rcases hcond with h | h
          · omega
          · exact h hall
        · cases hj
    · intro rp hmem
      rcases flashGo_events tr img (img.data.length / BLOCK_SIZE) 0 0
          (List.replicate REPORT_SIZE 0) [] (by rw [List.length_replicate]) _ hmem with
        h | ⟨j, hj, -, hcond⟩
      · cases h
      · rcases hj with hj | hj
        · cases hj
        · injection hj with h1 h2
          subst h1
          rcases hcond with h | h
          · omega
          · exact h hall
  · intro tr img hok
    rw [flash_with_progress, List.range_eq_range']
    exact flashGo_alwaysOk tr img hok (img.data.length / BLOCK_SIZE) 0 0
      (List.replicate REPORT_SIZE 0) (by rw [List.length_replicate])

/-- C2 witness: a two-block image that is entirely sentinel bytes, against an
always-succeeding transport: block 0 still heads the trace, and block 1 gets
neither a progress callback nor a write. -/
theorem c2_block_skip_rule_witness :
    (0 < (FirmwareImage.mk (List.replicate 2048 0xFF) 0).data.length / BLOCK_SIZE) ∧
    (∃ rest,
      (flash_with_progress (fun _ r => WOut.ok r.length)
        (FirmwareImage.mk (List.replicate 2048 0xFF) 0)).1 =
      FEv.progress 0 ::
      FEv.blockWrite 0 (fill_block_report (List.replicate REPORT_SIZE 0) 0
        ((FirmwareImage.mk (List.replicate 2048 0xFF) 0).data.take BLOCK_SIZE)) ::
        rest) ∧
    (((FirmwareImage.mk (List.replicate 2048 0xFF) 0).data.drop
        (1 * BLOCK_SIZE)).take BLOCK_SIZE).all (fun b => b == 0xFF) = true ∧
    FEv.progress 1 ∉ (flash_with_progress (fun _ r => WOut.ok r.length)
      (FirmwareImage.mk (List.replicate 2048 0xFF) 0)).1 := by
  have hdat : (FirmwareImage.mk (List.replicate 2048 (0xFF : Nat)) 0).data =
      List.replicate 2048 0xFF := rfl
  have h1 : 0 < (FirmwareImage.mk (List.replicate 2048 (0xFF : Nat)) 0).data.length /
      BLOCK_SIZE := by
    rw [hdat, List.length_replicate]
    decide
  have h2 : (((FirmwareImage.mk (List.replicate 2048 (0xFF : Nat)) 0).data.drop
      (1 * BLOCK_SIZE)).take BLOCK_SIZE).all (fun b => b == 0xFF) = true := by
    rw [hdat, List.drop_replicate, List.take_replicate, List.all_eq_true]
    intro x hx
    rw [List.eq_of_mem_replicate hx]
    rfl
  exact ⟨h1,
    c2_block_skip_rule.1 (fun _ r => WOut.ok r.length) _ h1,
    h2,
    (c2_block_skip_rule.2.1 (fun _ r => WOut.ok r.length) _ 1 (by decide) h2).1⟩

end Teensy
